import Mathlib

/-!
Verification development for the mutable WebAssembly execution backend
(`src/include/mutable/backend/WebAssembly.hpp`) and the PAX layout example
(`src/examples/pax_example.cpp`).

The registry operations (`Create_Wasm_Context_For_ID`,
`Ensure_Wasm_Context_For_ID`, `Dispose_Wasm_Context`,
`Get_Wasm_Context_By_ID`, `Has_Wasm_Context`) and `WasmContext.add_index`
are implemented inline in the header and are embedded from that source.
The bodies of `WasmContext::WasmContext`, `map_table`, `map_index` and
`install_guard_page`, and the `DataLayout` resolution algorithm, are not
part of the given sources (only declarations, documentation comments and
callers are); those definitions are modelled from the spec and say so in
their doc comments.
-/

namespace Mutable

/-- `WasmEngine::WASM_PAGE_SIZE`: the size of a WebAssembly memory page,
64 KiB (`1UL << 16`). -/
def WASM_PAGE_SIZE : Nat := 2 ^ 16

/-- `WasmEngine::WASM_MAX_MEMORY`: the maximum memory of a WebAssembly
module, `(1UL << 32) - (1UL << 16)` bytes. -/
def WASM_MAX_MEMORY : Nat := 2 ^ 32 - 2 ^ 16

/-- `WasmEngine::WASM_ALIGNMENT`: the alignment suitable for all built-in
types. -/
def WASM_ALIGNMENT : Nat := 8

/-- `WasmContext::config_t::TRAP_GUARD_PAGES`: bit `0b1` of the
configuration bitmask. -/
def TRAP_GUARD_PAGES : Nat := 1

/-- Shallow embedding of `WasmEngine::WasmContext`.  `plan` is the identity
of the borrowed `MatchBase` plan reference, `cfg` the `config_t` bitmask,
`vmSize` the byte size of the reserved address space `vm`, `heap` the heap
cursor (an offset from the beginning of the address space, `uint32_t heap
= 0` in the source), `indexes` the identities of the borrowed
`idx::IndexBase` references, and `guards` the start offsets of the guard
pages installed so far (the pages mapped `PROT_NONE`). -/
structure WasmContext where
  id : Nat
  plan : Nat
  cfg : Nat
  vmSize : Nat
  heap : Nat := 0
  indexes : List Nat := []
  guards : List Nat := []
  deriving Repr, DecidableEq

namespace WasmContext

/-- `WasmContext::config(cfg)`: `bool(cfg & config_)`. -/
def config (ctx : WasmContext) (c : Nat) : Bool := Nat.land c ctx.cfg != 0

/-- Modelled from the spec: the body of `WasmContext::install_guard_page`
is not in the given sources.  Per its documentation comment it installs a
guard page at the current `heap` and increments `heap` to the next page,
acknowledging `TRAP_GUARD_PAGES` (no-op when the flag is unset).  The
guard page occupies one `WASM_PAGE_SIZE`-byte page starting at the current
`heap`; installing it past the reserved address space fails. -/
def install_guard_page (ctx : WasmContext) : Option WasmContext :=
  if ctx.config TRAP_GUARD_PAGES then
    if ctx.heap + WASM_PAGE_SIZE ≤ ctx.vmSize then
      some { ctx with heap := ctx.heap + WASM_PAGE_SIZE,
                      guards := ctx.guards ++ [ctx.heap] }
    else none
  else some ctx

/-- Modelled from the spec: the body of `WasmContext::map_table` is not in
the given sources.  Per the spec and the documentation comment it maps the
table's storage footprint (`footprint` bytes, computed externally from the
table's `DataLayout`) at the current start of `heap`, advances `heap` past
the mapped region, returns the address of the mapped table, and installs a
guard page after the mapping (acknowledging `TRAP_GUARD_PAGES`).  Mapping
past the reserved address space fails. -/
def map_table (ctx : WasmContext) (footprint : Nat) : Option (Nat × WasmContext) :=
  if ctx.heap + footprint ≤ ctx.vmSize then
    let base := ctx.heap
    (install_guard_page { ctx with heap := ctx.heap + footprint }).map
      (fun c => (base, c))
  else none

/-- Modelled from the spec: the body of `WasmContext::map_index` is not in
the given sources.  Identical pattern to `map_table`, specialized to an
index's own serialized footprint. -/
def map_index (ctx : WasmContext) (footprint : Nat) : Option (Nat × WasmContext) :=
  if ctx.heap + footprint ≤ ctx.vmSize then
    let base := ctx.heap
    (install_guard_page { ctx with heap := ctx.heap + footprint }).map
      (fun c => (base, c))
  else none

/-- `WasmContext::add_index` (inline in the header):
`indexes.emplace_back(index); return indexes.size() - 1;`. -/
def add_index (ctx : WasmContext) (index : Nat) : Nat × WasmContext :=
  let ctx' := { ctx with indexes := ctx.indexes ++ [index] }
  (ctx'.indexes.length - 1, ctx')

end WasmContext

/-- Modelled from the spec: the body of the `WasmContext` constructor is
not in the given sources.  It reserves an address space of `size` bytes;
the `heap` cursor starts at 0 and `indexes` empty per the in-class member
initializers of the header. -/
def mkWasmContext (id plan cfg size : Nat) : WasmContext :=
  { id := id, plan := plan, cfg := cfg, vmSize := size }

/-- The registry `WasmEngine::contexts_`: maps unique IDs to `WasmContext`
instances (`std::unordered_map<unsigned, std::unique_ptr<WasmContext>>`),
embedded as an association list with unique keys. -/
abbrev Registry := List (Nat × WasmContext)

namespace Registry

/-- `contexts_.find(id)` projected to the mapped context. -/
def lookup (reg : Registry) (id : Nat) : Option WasmContext :=
  (reg.find? (fun p => p.1 == id)).map Prod.snd

/-- `WasmEngine::Has_Wasm_Context(id)`:
`contexts_.find(id) != contexts_.end()`. -/
def Has_Wasm_Context (reg : Registry) (id : Nat) : Bool :=
  (reg.find? (fun p => p.1 == id)).isSome

/-- `WasmEngine::Create_Wasm_Context_For_ID`: constructs a `WasmContext`,
emplaces it under `id`, and insists the emplace inserted (`M_insist
(inserted, "WasmContext with that ID already exists")` fails — `none` —
when a context with that ID already exists); returns the context. -/
def Create_Wasm_Context_For_ID (reg : Registry) (id plan cfg size : Nat) :
    Option (WasmContext × Registry) :=
  if Has_Wasm_Context reg id then none
  else
    let c := mkWasmContext id plan cfg size
    some (c, (id, c) :: reg)

/-- `WasmEngine::Ensure_Wasm_Context_For_ID`: `try_emplace` with a lazily
constructed `WasmContext`; returns the mapped context and whether it was
inserted. -/
def Ensure_Wasm_Context_For_ID (reg : Registry) (id plan cfg size : Nat) :
    (WasmContext × Bool) × Registry :=
  match lookup reg id with
  | some c => ((c, false), reg)
  | none =>
    let c := mkWasmContext id plan cfg size
    ((c, true), (id, c) :: reg)

/-- `WasmEngine::Dispose_Wasm_Context(id)`: `contexts_.erase(id)` with
`M_insist(res == 1, "There is no context with the given ID to erase")`
(fails — `none` — when no context with that ID exists). -/
def Dispose_Wasm_Context (reg : Registry) (id : Nat) : Option Registry :=
  if Has_Wasm_Context reg id then
    some (reg.filter (fun p => !(p.1 == id)))
  else none

/-- `WasmEngine::Dispose_Wasm_Context(const WasmContext &ctx)`: delegates
to disposing by `ctx.id`. -/
def Dispose_Wasm_Context_By_Ref (reg : Registry) (ctx : WasmContext) : Option Registry :=
  Dispose_Wasm_Context reg ctx.id

/-- `WasmEngine::Get_Wasm_Context_By_ID(id)`: `contexts_.find(id)` with
`M_insist(it != contexts_.end())` (fails — `none` — when absent). -/
def Get_Wasm_Context_By_ID (reg : Registry) (id : Nat) : Option WasmContext :=
  lookup reg id

/-- Registry well-formedness: keys are pairwise distinct (an
`std::unordered_map` holds at most one entry per key) and every stored
context's `id` field equals its key. -/
def WF (reg : Registry) : Prop :=
  (reg.map Prod.fst).Nodup ∧ ∀ p ∈ reg, (p.2 : WasmContext).id = p.1

instance (reg : Registry) : Decidable (WF reg) := by
  unfold WF
  exact inferInstance

end Registry

/-- Modelled from the spec: the `DataLayout` node type is not in the given
sources (only its construction calls in `pax_example.cpp` are).  A layout
node is a tagged variant: a `leaf` holds one attribute's physical column
store (`attribute_index`, `offset_bits`, `stride_bits`; the logical type
carried by the source is irrelevant to addressing and dropped), and a
`group` is a repeating PAX block (`capacity` tuples per repetition unit,
`base_offset_bits`, `span_bits`, ordered children). -/
inductive LayoutNode where
  | leaf (attr : Nat) (offsetBits : Nat) (strideBits : Nat)
  | group (capacity : Nat) (offsetBits : Nat) (spanBits : Nat)
      (children : List LayoutNode)
  deriving Repr

/-- Modelled from the spec: `DataLayout` owns a tuple capacity
(`num_tuples`) and a root group. -/
structure DataLayout where
  numTuples : Nat
  root : LayoutNode
  deriving Repr

mutual

/-- Modelled from the spec: the address-resolution algorithm of
`DataLayout` is not in the given sources.  At a group with capacity `c`,
`local = t mod c` and `outer = t / c` (integer division); the level
contributes `base_offset_bits + outer × span_bits` and resolution descends
into the child holding the attribute with the local index; at a leaf the
final contribution is `offset_bits + local × stride_bits`. -/
def resolveNode (attr : Nat) : LayoutNode → Nat → Option Nat
  | .leaf a off stride, t =>
    if a = attr then some (off + t * stride) else none
  | .group c off span children, t =>
    (resolveChildren attr children (t % c)).map
      (fun r => off + (t / c) * span + r)

/-- Modelled from the spec: resolution tries the group's children in
insertion order and descends into the one holding the attribute. -/
def resolveChildren (attr : Nat) : List LayoutNode → Nat → Option Nat
  | [], _ => none
  | child :: rest, t =>
    match resolveNode attr child t with
    | some r => some r
    | none => resolveChildren attr rest t

end

/-- Modelled from the spec: resolving attribute `attr` of tuple `t`
against a `DataLayout` runs the recursive algorithm from the root group. -/
def resolve (dl : DataLayout) (attr t : Nat) : Option Nat :=
  resolveNode attr dl.root t

/-- `create_custom_pax_layout` from `src/examples/pax_example.cpp`: a
`DataLayout` for 1000 tuples whose root group holds 256 tuples in
64 KiB (`64 * 1024 * 8` bit) blocks, containing three sub-groups: ids
(attribute 0, stride 32 bits), name and is_manager (attributes 1 and 4),
and age and salary (attributes 2 and 3). -/
def create_custom_pax_layout : DataLayout :=
  { numTuples := 1000
  , root := .group 256 0 (64 * 1024 * 8)
      [ .group 256 0 (256 * 4 * 8)
          [ .leaf 0 0 32 ]
      , .group 256 (256 * 4 * 8) (256 * (50 + 1) * 8)
          [ .leaf 1 0 400
          , .leaf 4 (256 * 400) 8 ]
      , .group 256 (256 * (4 + 50 + 1) * 8) (256 * (4 + 8) * 8)
          [ .leaf 2 0 32
          , .leaf 3 (256 * 32) 64 ] ] }

/-- One operation performed on a `WasmContext` during its life: mapping a
table, mapping an index (each with a given footprint in bytes), or a
direct call to `install_guard_page`. -/
inductive WasmOp where
  | mapTable (footprint : Nat)
  | mapIndex (footprint : Nat)
  | guard
  deriving Repr, DecidableEq

/-- Run one operation on a context, keeping only the resulting context. -/
def runOp (ctx : WasmContext) : WasmOp → Option WasmContext
  | .mapTable s => (ctx.map_table s).map Prod.snd
  | .mapIndex s => (ctx.map_index s).map Prod.snd
  | .guard => ctx.install_guard_page

/-- Run a sequence of operations on a context; a failing operation aborts
the sequence. -/
def runOps (ctx : WasmContext) : List WasmOp → Option WasmContext
  | [] => some ctx
  | op :: ops => (runOp ctx op).bind (fun c => runOps c ops)

namespace WasmContext

theorem install_guard_page_success (ctx c' : WasmContext)
    (h : ctx.install_guard_page = some c') :
    (ctx.config TRAP_GUARD_PAGES = true ∧
      c' = { ctx with heap := ctx.heap + WASM_PAGE_SIZE,
                      guards := ctx.guards ++ [ctx.heap] }) ∨
    (ctx.config TRAP_GUARD_PAGES = false ∧ c' = ctx) := by
  unfold install_guard_page at h
  split at h
  case isTrue hflag =>
    split at h
    case isTrue hfit =>
      left
      exact ⟨hflag, (Option.some.inj h).symm⟩
    case isFalse hfit => exact Option.noConfusion h
  case isFalse hflag =>
    right
    exact ⟨Bool.eq_false_iff.2 hflag, (Option.some.inj h).symm⟩

theorem install_guard_page_heap_le (ctx c' : WasmContext)
    (h : ctx.install_guard_page = some c') : ctx.heap ≤ c'.heap := by
  rcases install_guard_page_success ctx c' h with ⟨_, rfl⟩ | ⟨_, rfl⟩
  · exact Nat.le_add_right _ _
  · exact le_rfl

theorem map_table_success (ctx : WasmContext) (s b : Nat) (c' : WasmContext)
    (h : ctx.map_table s = some (b, c')) :
    b = ctx.heap ∧ c'.cfg = ctx.cfg ∧ c'.vmSize = ctx.vmSize ∧ c'.id = ctx.id ∧
    (ctx.config TRAP_GUARD_PAGES = true →
      c'.heap = ctx.heap + s + WASM_PAGE_SIZE ∧
      c'.guards = ctx.guards ++ [ctx.heap + s]) ∧
    (ctx.config TRAP_GUARD_PAGES = false →
      c'.heap = ctx.heap + s ∧ c'.guards = ctx.guards) := by
  unfold map_table at h
  split at h
  case isTrue hfit =>
    rcases Option.map_eq_some'.1 h with ⟨cmid, hmid, hpair⟩
    injection hpair with hb hc'
    subst hb
    subst hc'
    have hcfg : ({ ctx with heap := ctx.heap + s } : WasmContext).config
        TRAP_GUARD_PAGES = ctx.config TRAP_GUARD_PAGES := rfl
    rcases install_guard_page_success _ _ hmid with ⟨hflag, rfl⟩ | ⟨hflag, rfl⟩
    · refine ⟨rfl, rfl, rfl, rfl, fun _ => ⟨rfl, rfl⟩, fun hcontra => ?_⟩
      · rw [hcfg] at hflag
        rw [hflag] at hcontra
        exact absurd hcontra (by simp)
    · rw [hcfg] at hflag
      refine ⟨rfl, rfl, rfl, rfl, fun hcontra => ?_, fun _ => ⟨rfl, rfl⟩⟩
      rw [hflag] at hcontra
      exact absurd hcontra (by simp)
  case isFalse hfit => exact Option.noConfusion h

theorem map_table_heap_le (ctx : WasmContext) (s b : Nat) (c' : WasmContext)
    (h : ctx.map_table s = some (b, c')) : ctx.heap ≤ c'.heap := by
  rcases map_table_success ctx s b c' h with ⟨_, _, _, _, h1, h2⟩
  cases hflag : ctx.config TRAP_GUARD_PAGES
  · rw [(h2 hflag).1]
    exact Nat.le_add_right _ _
  · rw [(h1 hflag).1]
    exact le_trans (Nat.le_add_right _ _) (Nat.le_add_right _ _)

theorem map_index_success (ctx : WasmContext) (s b : Nat) (c' : WasmContext)
    (h : ctx.map_index s = some (b, c')) : ctx.map_table s = some (b, c') := by
  unfold map_index at h
  unfold map_table
  exact h

end WasmContext

theorem runOp_heap_le (ctx : WasmContext) (op : WasmOp) (c' : WasmContext)
    (h : runOp ctx op = some c') : ctx.heap ≤ c'.heap := by
  cases op with
  | mapTable s =>
    unfold runOp at h
    rcases Option.map_eq_some'.1 h with ⟨⟨b, cnext⟩, hmap, hsnd⟩
    rw [← hsnd]
    exact WasmContext.map_table_heap_le ctx s b cnext hmap
  | mapIndex s =>
    unfold runOp at h
    rcases Option.map_eq_some'.1 h with ⟨⟨b, cnext⟩, hmap, hsnd⟩
    rw [← hsnd]
    exact WasmContext.map_table_heap_le ctx s b cnext
      (WasmContext.map_index_success ctx s b cnext hmap)
  | guard =>
    exact WasmContext.install_guard_page_heap_le ctx c' h

theorem runOps_heap_le (ctx : WasmContext) (ops : List WasmOp) (c' : WasmContext)
    (h : runOps ctx ops = some c') : ctx.heap ≤ c'.heap := by
  induction ops generalizing ctx with
  | nil =>
    unfold runOps at h
    rw [Option.some.inj h]
  | cons op rest ih =>
    unfold runOps at h
    rcases Option.bind_eq_some.1 h with ⟨cmid, hop, hrest⟩
    exact le_trans (runOp_heap_le ctx op cmid hop) (ih cmid hrest)

namespace Registry

theorem has_eq_false_iff_lookup (reg : Registry) (id : Nat) :
    Has_Wasm_Context reg id = false ↔ lookup reg id = none := by
  unfold Has_Wasm_Context lookup
  cases hfind : reg.find? (fun p => p.1 == id) <;> simp

theorem has_filter_self (reg : Registry) (id : Nat) :
    Has_Wasm_Context (reg.filter (fun p => !(p.1 == id))) id = false := by
  unfold Has_Wasm_Context
  rw [Bool.eq_false_iff]
  intro hsome
  rw [Option.isSome_iff_exists] at hsome
  rcases hsome with ⟨p, hp⟩
  have hmem := List.mem_filter.1 (List.mem_of_find?_eq_some hp)
  have hpred := List.find?_some hp
  rw [hpred] at hmem
  exact Bool.noConfusion hmem.2

theorem create_eq_some (reg : Registry) (id plan cfg size : Nat)
    (h : Has_Wasm_Context reg id = false) :
    Create_Wasm_Context_For_ID reg id plan cfg size =
      some (mkWasmContext id plan cfg size,
            (id, mkWasmContext id plan cfg size) :: reg) := by
  unfold Create_Wasm_Context_For_ID
  rw [h]
  rfl

theorem has_cons_self (reg : Registry) (id : Nat) (c : WasmContext) :
    Has_Wasm_Context ((id, c) :: reg) id = true := by
  unfold Has_Wasm_Context
  rw [List.find?_cons_of_pos]
  · rfl
  · exact beq_self_eq_true id

theorem dispose_eq_some (reg : Registry) (id : Nat)
    (h : Has_Wasm_Context reg id = true) :
    Dispose_Wasm_Context reg id = some (reg.filter (fun p => !(p.1 == id))) := by
  unfold Dispose_Wasm_Context
  rw [h]
  rfl

theorem create_eq_none (reg : Registry) (id plan cfg size : Nat)
    (h : Has_Wasm_Context reg id = true) :
    Create_Wasm_Context_For_ID reg id plan cfg size = none := by
  unfold Create_Wasm_Context_For_ID
  rw [h]
  rfl

theorem lookup_cons_self (reg : Registry) (id : Nat) (c : WasmContext) :
    lookup ((id, c) :: reg) id = some c := by
  unfold lookup
  rw [List.find?_cons_of_pos]
  · rfl
  · exact beq_self_eq_true id

theorem has_of_mem (reg : Registry) (p : Nat × WasmContext) (hp : p ∈ reg) :
    Has_Wasm_Context reg p.1 = true := by
  unfold Has_Wasm_Context
  rw [List.find?_isSome]
  exact ⟨p, hp, by simp⟩

theorem create_dispose_create_isSome (reg : Registry) (id plan cfg size : Nat)
    (h : Has_Wasm_Context reg id = false) :
    (((Create_Wasm_Context_For_ID reg id plan cfg size).bind
        (fun p => Dispose_Wasm_Context p.2 id)).bind
      (fun r => Create_Wasm_Context_For_ID r id plan cfg size)).isSome = true := by
  rw [create_eq_some reg id plan cfg size h]
  rw [Option.some_bind]
  rw [dispose_eq_some _ id (has_cons_self reg id _)]
  rw [Option.some_bind]
  rw [create_eq_some _ id plan cfg size (has_filter_self _ id)]
  rfl

theorem not_has_not_mem_keys (reg : Registry) (id : Nat)
    (h : Has_Wasm_Context reg id = false) : id ∉ reg.map Prod.fst := by
  intro hmem
  rcases List.mem_map.1 hmem with ⟨p, hp, hfst⟩
  unfold Has_Wasm_Context at h
  rw [Bool.eq_false_iff] at h
  apply h
  rw [List.find?_isSome]
  exact ⟨p, hp, by simp [hfst]⟩

theorem key_unique_of_nodup {reg : Registry} {k : Nat} {a b : WasmContext}
    (h : (reg.map Prod.fst).Nodup) (ha : (k, a) ∈ reg) (hb : (k, b) ∈ reg) :
    a = b := by
  induction reg with
  | nil => cases ha
  | cons p rest ih =>
    rw [List.map_cons, List.nodup_cons] at h
    rcases List.mem_cons.1 ha with ha' | ha'
    · rcases List.mem_cons.1 hb with hb' | hb'
      · have hab : (k, a) = (k, b) := ha'.trans hb'.symm
        exact (Prod.mk.inj hab).2
      · exfalso
        apply h.1
        rw [← ha']
        exact List.mem_map.2 ⟨(k, b), hb', rfl⟩
    · rcases List.mem_cons.1 hb with hb' | hb'
      · exfalso
        apply h.1
        rw [← hb']
        exact List.mem_map.2 ⟨(k, a), ha', rfl⟩
      · exact ih h.2 ha' hb'

theorem wf_nil : WF ([] : Registry) := by
  constructor
  · exact List.nodup_nil
  · intro p hp
    cases hp

theorem wf_cons (reg : Registry) (id plan cfg size : Nat) (hwf : WF reg)
    (h : Has_Wasm_Context reg id = false) :
    WF ((id, mkWasmContext id plan cfg size) :: reg) := by
  constructor
  · rw [List.map_cons, List.nodup_cons]
    exact ⟨not_has_not_mem_keys reg id h, hwf.1⟩
  · intro p hp
    rcases List.mem_cons.1 hp with hp' | hp'
    · rw [hp']
      rfl
    · exact hwf.2 p hp'

theorem wf_filter (reg : Registry) (id : Nat) (hwf : WF reg) :
    WF (reg.filter (fun p => !(p.1 == id))) := by
  constructor
  · exact List.Nodup.sublist (List.Sublist.map Prod.fst (List.filter_sublist reg)) hwf.1
  · intro p hp
    exact hwf.2 p (List.mem_filter.1 hp).1

theorem wf_create (reg : Registry) (id plan cfg size : Nat) (c : WasmContext)
    (reg' : Registry) (hwf : WF reg)
    (h : Create_Wasm_Context_For_ID reg id plan cfg size = some (c, reg')) :
    WF reg' := by
  unfold Create_Wasm_Context_For_ID at h
  split at h
  case isTrue hhas => exact Option.noConfusion h
  case isFalse hhas =>
    injection Option.some.inj h with hc hreg
    rw [← hreg]
    exact wf_cons reg id plan cfg size hwf (Bool.eq_false_iff.2 hhas)

theorem wf_ensure (reg : Registry) (id plan cfg size : Nat) (hwf : WF reg) :
    WF (Ensure_Wasm_Context_For_ID reg id plan cfg size).2 := by
  unfold Ensure_Wasm_Context_For_ID
  cases hlk : lookup reg id with
  | some c => exact hwf
  | none =>
    exact wf_cons reg id plan cfg size hwf ((has_eq_false_iff_lookup reg id).2 hlk)

theorem wf_dispose (reg : Registry) (id : Nat) (reg' : Registry) (hwf : WF reg)
    (h : Dispose_Wasm_Context reg id = some reg') : WF reg' := by
  unfold Dispose_Wasm_Context at h
  split at h
  case isTrue hhas =>
    rw [← Option.some.inj h]
    exact wf_filter reg id hwf
  case isFalse hhas => exact Option.noConfusion h

end Registry

/-- Registries reachable from the initially empty `contexts_` (the map is
value-initialized empty at startup) by the registry operations
`Create_Wasm_Context_For_ID`, `Ensure_Wasm_Context_For_ID` and
`Dispose_Wasm_Context`. -/
inductive Reachable : Registry → Prop where
  | empty : Reachable []
  | create {reg : Registry} {c : WasmContext} {reg' : Registry}
      (id plan cfg size : Nat) : Reachable reg →
      Registry.Create_Wasm_Context_For_ID reg id plan cfg size = some (c, reg') →
      Reachable reg'
  | ensure {reg : Registry} (id plan cfg size : Nat) : Reachable reg →
      Reachable (Registry.Ensure_Wasm_Context_For_ID reg id plan cfg size).2
  | dispose {reg reg' : Registry} (id : Nat) : Reachable reg →
      Registry.Dispose_Wasm_Context reg id = some reg' →
      Reachable reg'

theorem reach_wf (reg : Registry) (h : Reachable reg) : Registry.WF reg := by
  induction h with
  | empty => exact Registry.wf_nil
  | create id plan cfg size _ hcr ih => exact Registry.wf_create _ id plan cfg size _ _ ih hcr
  | ensure id plan cfg size _ ih => exact Registry.wf_ensure _ id plan cfg size ih
  | dispose id _ hd ih => exact Registry.wf_dispose _ id _ ih hd

theorem config_congr (ctx ctx' : WasmContext) (h : ctx'.cfg = ctx.cfg) (c : Nat) :
    ctx'.config c = ctx.config c := by
  unfold WasmContext.config
  rw [h]

/-- C1: two consecutive `map_table` calls on the same context (for two
tables of footprints `s1` and `s2`) return non-overlapping regions; when
`TRAP_GUARD_PAGES` is set in the context's configuration the regions are
separated by exactly one guard page (`WASM_PAGE_SIZE` bytes, recorded as a
guard page at the end of the first region), and when the flag is not set
they are separated by zero extra bytes. -/
theorem map_table_isolation (ctx : WasmContext) (s1 s2 b1 b2 : Nat)
    (ctx1 ctx2 : WasmContext)
    (h1 : ctx.map_table s1 = some (b1, ctx1))
    (h2 : ctx1.map_table s2 = some (b2, ctx2)) :
    b1 + s1 ≤ b2 ∧
    (∀ a, b1 ≤ a → a < b1 + s1 → ¬ (b2 ≤ a ∧ a < b2 + s2)) ∧
    (ctx.config TRAP_GUARD_PAGES = true →
      b2 = b1 + s1 + WASM_PAGE_SIZE ∧ (b1 + s1) ∈ ctx2.guards) ∧
    (ctx.config TRAP_GUARD_PAGES = false → b2 = b1 + s1) := by
  obtain ⟨hb1, hcfg1, _, _, hflag1t, hflag1f⟩ :=
    WasmContext.map_table_success ctx s1 b1 ctx1 h1
  obtain ⟨hb2, hcfg2, _, _, hflag2t, hflag2f⟩ :=
    WasmContext.map_table_success ctx1 s2 b2 ctx2 h2
  have hcc : ctx1.config TRAP_GUARD_PAGES = ctx.config TRAP_GUARD_PAGES :=
    config_congr ctx ctx1 hcfg1 TRAP_GUARD_PAGES
  have key : (ctx.config TRAP_GUARD_PAGES = true →
      b2 = b1 + s1 + WASM_PAGE_SIZE ∧ (b1 + s1) ∈ ctx2.guards) ∧
      (ctx.config TRAP_GUARD_PAGES = false → b2 = b1 + s1) := by
    constructor
    · intro hflag
      obtain ⟨hh1, hg1⟩ := hflag1t hflag
      obtain ⟨hh2, hg2⟩ := hflag2t (hcc.trans hflag)
      constructor
      · rw [hb2, hh1, hb1]
      · rw [hg2, hg1, hb1]
        simp
    · intro hflag
      obtain ⟨hh1, hg1⟩ := hflag1f hflag
      rw [hb2, hh1, hb1]
  have hle : b1 + s1 ≤ b2 := by
    cases hflag : ctx.config TRAP_GUARD_PAGES
    · rw [key.2 hflag]
    · rw [(key.1 hflag).1]
      exact Nat.le_add_right _ _
  exact ⟨hle,
    fun a ha1 ha2 hcontra =>
      absurd (lt_of_lt_of_le ha2 (le_trans hle hcontra.1)) (lt_irrefl a),
    key.1, key.2⟩

/-- Witness for C1 at a concrete context with guard pages enabled. -/
theorem map_table_isolation_witness : 0 + 100 ≤ 65636 :=
  (map_table_isolation (mkWasmContext 1 0 1 1048576) 100 200 0 65636
    ⟨1, 0, 1, 1048576, 65636, [], [100]⟩
    ⟨1, 0, 1, 1048576, 131372, [], [100, 65836]⟩
    (by decide) (by decide)).1

/-- C2: in the layout built by `create_custom_pax_layout` (capacity 1000
tuples, root group of capacity 256 and span `64 * 1024 * 8` bits),
resolving attribute 0 (stride 32 bits) for tuple 300 selects outer block
`300 / 256 = 1` and local index `300 % 256 = 44` and yields the bit
address `(base offset of block 1) + 44 * 32`, per the per-level rule
`local = t mod capacity`, `outer = t / capacity`. -/
theorem pax_resolve_attr0_tuple300 :
    resolve create_custom_pax_layout 0 300 =
      some ((300 / 256) * (64 * 1024 * 8) + (300 % 256) * 32) ∧
    300 / 256 = 1 ∧ 300 % 256 = 44 ∧
    resolve create_custom_pax_layout 0 300 =
      some (1 * (64 * 1024 * 8) + 44 * 32) := by
  exact ⟨rfl, rfl, rfl, rfl⟩

/-- C6: across any sequence of `map_table`, `map_index` and
`install_guard_page` operations, the `heap` cursor never decreases: every
single operation and every successful operation sequence leaves `heap`
greater than or equal to its previous value. -/
theorem heap_monotone (ctx : WasmContext) :
    (∀ op c', runOp ctx op = some c' → ctx.heap ≤ c'.heap) ∧
    (∀ ops c', runOps ctx ops = some c' → ctx.heap ≤ c'.heap) :=
  ⟨fun op c' h => runOp_heap_le ctx op c' h,
   fun ops c' h => runOps_heap_le ctx ops c' h⟩

/-- Witness for C6 at a concrete context and operation sequence. -/
theorem heap_monotone_witness : (mkWasmContext 1 0 1 WASM_MAX_MEMORY).heap ≤ 196758 :=
  (heap_monotone (mkWasmContext 1 0 1 WASM_MAX_MEMORY)).2
    [WasmOp.mapTable 100, WasmOp.mapIndex 50, WasmOp.guard]
    ⟨1, 0, 1, WASM_MAX_MEMORY, 196758, [], [100, 65686, 131222]⟩ (by decide)

/-- C7: `add_index` appends the borrowed index reference to the context's
`indexes` sequence and returns its ordinal position, which equals the
number of indexes previously in the sequence; indexing the sequence with
that ordinal afterwards yields the same index.  Moreover a run of
`add_index` calls grows the sequence by exactly one entry per call, so the
returned ordinal counts the indexes added before the call. -/
theorem add_index_spec (ctx : WasmContext) (index : Nat) :
    (ctx.add_index index).1 = ctx.indexes.length ∧
    (ctx.add_index index).2.indexes = ctx.indexes ++ [index] ∧
    (ctx.add_index index).2.indexes[(ctx.add_index index).1]? = some index ∧
    (∀ l : List Nat,
      (l.foldl (fun c i => (WasmContext.add_index c i).2) ctx).indexes.length =
        ctx.indexes.length + l.length) := by
  refine ⟨?_, rfl, ?_, ?_⟩
  · unfold WasmContext.add_index
    simp
  · unfold WasmContext.add_index
    simp
  · intro l
    induction l generalizing ctx with
    | nil => rfl
    | cons i rest ih =>
      rw [List.foldl_cons, ih]
      unfold WasmContext.add_index
      simp
      omega

/-- C8: a context constructed with the default size argument
(`WASM_MAX_MEMORY`) reserves an address space of exactly `2^32 - 2^16`
bytes, and its `heap` cursor starts at 0. -/
theorem default_context_reservation (id plan cfg : Nat) :
    WASM_MAX_MEMORY = 2 ^ 32 - 2 ^ 16 ∧
    (mkWasmContext id plan cfg WASM_MAX_MEMORY).vmSize = 2 ^ 32 - 2 ^ 16 ∧
    (mkWasmContext id plan cfg WASM_MAX_MEMORY).heap = 0 ∧
    (mkWasmContext id plan cfg WASM_MAX_MEMORY).indexes = [] :=
  ⟨rfl, rfl, rfl, rfl⟩

/-- C3: `Create_Wasm_Context_For_ID` fails exactly when a context with the
given ID is already registered; otherwise it constructs a new context from
its arguments, inserts it under that ID (so looking the ID up afterwards
finds it), and returns it; in particular the sequence Create, Dispose,
Create for the same ID succeeds. -/
theorem create_context_spec (reg : Registry) (id plan cfg size : Nat) :
    (Registry.Create_Wasm_Context_For_ID reg id plan cfg size = none ↔
      Registry.Has_Wasm_Context reg id = true) ∧
    (∀ c reg',
      Registry.Create_Wasm_Context_For_ID reg id plan cfg size = some (c, reg') →
      c = mkWasmContext id plan cfg size ∧ reg' = (id, c) :: reg ∧
      Registry.lookup reg' id = some c) ∧
    (Registry.Has_Wasm_Context reg id = false →
      (((Registry.Create_Wasm_Context_For_ID reg id plan cfg size).bind
          (fun p => Registry.Dispose_Wasm_Context p.2 id)).bind
        (fun r => Registry.Create_Wasm_Context_For_ID r id plan cfg size)).isSome =
        true) := by
  refine ⟨⟨?_, ?_⟩, ?_, Registry.create_dispose_create_isSome reg id plan cfg size⟩
  · intro hnone
    cases hhas : Registry.Has_Wasm_Context reg id
    · rw [Registry.create_eq_some reg id plan cfg size hhas] at hnone
      exact Option.noConfusion hnone
    · rfl
  · intro hhas
    exact Registry.create_eq_none reg id plan cfg size hhas
  · intro c reg' h
    cases hhas : Registry.Has_Wasm_Context reg id
    · rw [Registry.create_eq_some reg id plan cfg size hhas] at h
      injection Option.some.inj h with hc hr
      subst hc
      subst hr
      exact ⟨rfl, rfl, Registry.lookup_cons_self reg id _⟩
    · rw [Registry.create_eq_none reg id plan cfg size hhas] at h
      exact Option.noConfusion h

/-- Witness for C3: on a concrete registry without the ID, the
Create-Dispose-Create sequence succeeds. -/
theorem create_context_spec_witness :
    (((Registry.Create_Wasm_Context_For_ID [] 7 1 0 10).bind
        (fun p => Registry.Dispose_Wasm_Context p.2 7)).bind
      (fun r => Registry.Create_Wasm_Context_For_ID r 7 1 0 10)).isSome = true :=
  (create_context_spec [] 7 1 0 10).2.2 (by decide)

/-- C4: `Ensure_Wasm_Context_For_ID` returns the already-registered
context with `inserted = false` when the ID is present, and otherwise
constructs and inserts a new context exactly as
`Create_Wasm_Context_For_ID` does (same returned context, same resulting
registry) and returns it with `inserted = true`. -/
theorem ensure_context_spec (reg : Registry) (id plan cfg size : Nat) :
    (∀ c, Registry.lookup reg id = some c →
      Registry.Ensure_Wasm_Context_For_ID reg id plan cfg size = ((c, false), reg)) ∧
    (Registry.lookup reg id = none →
      Registry.Ensure_Wasm_Context_For_ID reg id plan cfg size =
        ((mkWasmContext id plan cfg size, true),
         (id, mkWasmContext id plan cfg size) :: reg) ∧
      Registry.Create_Wasm_Context_For_ID reg id plan cfg size =
        some ((Registry.Ensure_Wasm_Context_For_ID reg id plan cfg size).1.1,
              (Registry.Ensure_Wasm_Context_For_ID reg id plan cfg size).2)) := by
  constructor
  · intro c hc
    unfold Registry.Ensure_Wasm_Context_For_ID
    rw [hc]
  · intro hn
    have h1 : Registry.Ensure_Wasm_Context_For_ID reg id plan cfg size =
        ((mkWasmContext id plan cfg size, true),
         (id, mkWasmContext id plan cfg size) :: reg) := by
      unfold Registry.Ensure_Wasm_Context_For_ID
      rw [hn]
    refine ⟨h1, ?_⟩
    rw [h1]
    exact Registry.create_eq_some reg id plan cfg size
      ((Registry.has_eq_false_iff_lookup reg id).2 hn)

/-- Witness for C4: both the present and the absent case at concrete
registries. -/
theorem ensure_context_spec_witness :
    Registry.Ensure_Wasm_Context_For_ID [(3, mkWasmContext 3 0 0 5)] 3 9 9 9 =
      ((mkWasmContext 3 0 0 5, false), [(3, mkWasmContext 3 0 0 5)]) ∧
    Registry.Ensure_Wasm_Context_For_ID [] 3 0 0 5 =
      ((mkWasmContext 3 0 0 5, true), [(3, mkWasmContext 3 0 0 5)]) :=
  ⟨(ensure_context_spec [(3, mkWasmContext 3 0 0 5)] 3 9 9 9).1
      (mkWasmContext 3 0 0 5) (by decide),
   ((ensure_context_spec [] 3 0 0 5).2 (by decide)).1⟩

/-- C5: disposing an ID that is present succeeds and removes that ID's
entry, so that afterwards `Has_Wasm_Context` is false and looking the ID
up (`lookup`, `Get_Wasm_Context_By_ID`) fails; disposing an absent ID
fails. -/
theorem dispose_context_spec (reg : Registry) (id : Nat) :
    (Registry.Has_Wasm_Context reg id = true →
      (Registry.Dispose_Wasm_Context reg id).isSome = true) ∧
    (∀ reg', Registry.Dispose_Wasm_Context reg id = some reg' →
      Registry.Has_Wasm_Context reg' id = false ∧
      Registry.lookup reg' id = none ∧
      Registry.Get_Wasm_Context_By_ID reg' id = none) ∧
    (Registry.Has_Wasm_Context reg id = false →
      Registry.Dispose_Wasm_Context reg id = none) := by
  refine ⟨?_, ?_, ?_⟩
  · intro h
    rw [Registry.dispose_eq_some reg id h]
    rfl
  · intro reg' h
    cases hhas : Registry.Has_Wasm_Context reg id
    · unfold Registry.Dispose_Wasm_Context at h
      rw [hhas] at h
      exact Option.noConfusion h
    · rw [Registry.dispose_eq_some reg id hhas] at h
      rw [← Option.some.inj h]
      exact ⟨Registry.has_filter_self reg id,
        (Registry.has_eq_false_iff_lookup _ id).1 (Registry.has_filter_self reg id),
        (Registry.has_eq_false_iff_lookup _ id).1 (Registry.has_filter_self reg id)⟩
  · intro h
    unfold Registry.Dispose_Wasm_Context
    rw [h]
    rfl

/-- Witness for C5: disposing the only entry of a concrete registry leaves
an empty registry in which the ID can no longer be found. -/
theorem dispose_context_spec_witness :
    Registry.Has_Wasm_Context ([] : Registry) 2 = false :=
  ((dispose_context_spec [(2, mkWasmContext 2 0 0 7)] 2).2.1 [] (by decide)).1

/-- C9 counterexample: the code does not enforce positivity of context
IDs.  On the empty registry, `Create_Wasm_Context_For_ID` with ID 0
succeeds, leaving a live context whose `id` field is 0, which is not a
positive integer. -/
theorem id_zero_context_live :
    Registry.Create_Wasm_Context_For_ID [] 0 1 0 WASM_MAX_MEMORY =
      some (mkWasmContext 0 1 0 WASM_MAX_MEMORY,
            [(0, mkWasmContext 0 1 0 WASM_MAX_MEMORY)]) ∧
    Registry.Has_Wasm_Context [(0, mkWasmContext 0 1 0 WASM_MAX_MEMORY)] 0 = true ∧
    (mkWasmContext 0 1 0 WASM_MAX_MEMORY).id = 0 ∧
    ¬ 0 < (mkWasmContext 0 1 0 WASM_MAX_MEMORY).id :=
  ⟨rfl, rfl, rfl, by decide⟩

/-- C9 (amended): context IDs are caller-chosen unsigned integers — zero
is accepted, so positivity is not guaranteed by the code — and IDs are
unique among currently-live contexts (any two entries of a registry
reachable by the registry operations hold contexts with distinct IDs);
reuse of an ID after the context holding it has been disposed is
permitted (Create, Dispose, Create for the same ID succeeds). -/
theorem live_ids_unique_and_reusable (reg : Registry) (id plan cfg size : Nat)
    (hre : Reachable reg) :
    reg.Pairwise (fun p q => (p.2 : WasmContext).id ≠ (q.2 : WasmContext).id) ∧
    (Registry.Has_Wasm_Context reg id = false →
      (((Registry.Create_Wasm_Context_For_ID reg id plan cfg size).bind
          (fun p => Registry.Dispose_Wasm_Context p.2 id)).bind
        (fun r => Registry.Create_Wasm_Context_For_ID r id plan cfg size)).isSome =
        true) := by
  have hwf := reach_wf reg hre
  constructor
  · have h1 : (reg.map Prod.fst).Pairwise (fun a b => a ≠ b) := hwf.1
    rw [List.pairwise_map] at h1
    exact List.Pairwise.imp_of_mem
      (fun ha hb hne => by
        rw [hwf.2 _ ha, hwf.2 _ hb]
        exact hne) h1
  · exact Registry.create_dispose_create_isSome reg id plan cfg size

/-- Witness for C9 at the empty (trivially reachable) registry. -/
theorem live_ids_unique_and_reusable_witness :
    ([] : Registry).Pairwise
      (fun p q => (p.2 : WasmContext).id ≠ (q.2 : WasmContext).id) :=
  (live_ids_unique_and_reusable [] 3 0 0 7 Reachable.empty).1

/-- C10: in every registry reachable by the registry operations, each
entry's key equals the stored context's `id` field; consequently disposing
a context by reference — which delegates to disposing by `ctx.id` —
succeeds for a registered context and removes exactly that context's
registry entry (the resulting registry holds precisely the other
entries). -/
theorem registry_key_matches_id (reg : Registry) (hre : Reachable reg) :
    (∀ p ∈ reg, (p.2 : WasmContext).id = p.1) ∧
    (∀ id0 c, (id0, c) ∈ reg →
      (Registry.Dispose_Wasm_Context_By_Ref reg c).isSome = true) ∧
    (∀ id0 c, (id0, c) ∈ reg →
      ∀ reg', Registry.Dispose_Wasm_Context_By_Ref reg c = some reg' →
        ∀ q, q ∈ reg' ↔ (q ∈ reg ∧ q ≠ (id0, c))) := by
  have hwf := reach_wf reg hre
  have hhas : ∀ id0 c, (id0, c) ∈ reg →
      Registry.Has_Wasm_Context reg c.id = true := by
    intro id0 c hmem
    have h1 := Registry.has_of_mem reg (id0, c) hmem
    rw [hwf.2 (id0, c) hmem]
    exact h1
  refine ⟨hwf.2, ?_, ?_⟩
  · intro id0 c hmem
    unfold Registry.Dispose_Wasm_Context_By_Ref
    rw [Registry.dispose_eq_some reg c.id (hhas id0 c hmem)]
    rfl
  · intro id0 c hmem reg' hdisp q
    have hid : c.id = id0 := hwf.2 (id0, c) hmem
    unfold Registry.Dispose_Wasm_Context_By_Ref at hdisp
    rw [Registry.dispose_eq_some reg c.id (hhas id0 c hmem)] at hdisp
    rw [← Option.some.inj hdisp]
    obtain ⟨qk, qc⟩ := q
    constructor
    · intro hq
      obtain ⟨hqmem, hqpred⟩ := List.mem_filter.1 hq
      refine ⟨hqmem, ?_⟩
      intro heq
      injection heq with heq1 heq2
      simp only [Bool.not_eq_true', beq_eq_false_iff_ne, ne_eq] at hqpred
      exact hqpred (heq1.trans hid.symm)
    · rintro ⟨hqmem, hqne⟩
      apply List.mem_filter.2
      refine ⟨hqmem, ?_⟩
      simp only [Bool.not_eq_true', beq_eq_false_iff_ne, ne_eq]
      intro hqk
      apply hqne
      have hqk0 : qk = id0 := hqk.trans hid
      subst hqk0
      have hqc : qc = c := Registry.key_unique_of_nodup hwf.1 hqmem hmem
      rw [hqc]

/-- Witness for C10 at a concrete reachable singleton registry. -/
theorem registry_key_matches_id_witness :
    ((5, mkWasmContext 5 0 0 9).2 : WasmContext).id = (5, mkWasmContext 5 0 0 9).1 :=
  (registry_key_matches_id [(5, mkWasmContext 5 0 0 9)]
    (@Reachable.create [] (mkWasmContext 5 0 0 9) [(5, mkWasmContext 5 0 0 9)]
      5 0 0 9 Reachable.empty (by decide))).1 _ (by decide)

end Mutable
